import Mathlib

/-!
Shallow embedding of the floor_composer curve/geometry engine
(`src/floor_composer/core.py`, `factories.py`, `visualization.py`).

Coordinates are modelled as rationals (every Python float value is a
rational number); derived metric quantities (distances, radii, angles)
are real-valued, mirroring the floating-point formulas of the source.
Python exceptions are modelled with `Except`: a `raise` becomes an
`Except.error` carrying the corresponding error kind.
-/

open Real

/-- `create_point` (core.py line 9): a 2D point in meters. -/
structure Point where
  x : ℚ
  y : ℚ
deriving DecidableEq, Repr

instance : Inhabited Point := ⟨⟨0, 0⟩⟩

/-- Arc segment payload (core.py `create_arc_segment`, line 23):
start, end, center points and the clockwise flag. -/
structure ArcSeg where
  start : Point
  endP : Point
  center : Point
  clockwise : Bool
deriving DecidableEq, Repr

/-- A segment is a line (`create_line_segment`, core.py line 14) or an
arc (`create_arc_segment`, core.py line 23); the source tags the dict
with `"type": "line" | "arc"`. -/
inductive Segment where
  | line (start endP : Point)
  | arc (a : ArcSeg)
deriving DecidableEq, Repr

instance : Inhabited Segment := ⟨Segment.line ⟨0, 0⟩ ⟨0, 0⟩⟩

/-- `element["start"]` for either segment kind. -/
def Segment.startP : Segment → Point
  | .line s _ => s
  | .arc a => a.start

/-- `element["end"]` for either segment kind. -/
def Segment.endP : Segment → Point
  | .line _ e => e
  | .arc a => a.endP

/-- A curve (core.py `create_curve`, lines 35-58): elements, the
stringly-typed curve type ("open"/"closed"), optional name and
material (the material is only carried along, never inspected by the
geometry engine). -/
structure Curve where
  elements : List Segment
  curve_type : String
  name : Option String
  material : Option String
deriving DecidableEq, Repr

/-- The error kinds raised by the engine (spec §7 taxonomy):
discontinuity / closure failures from `validate_curve`, the
`"Need at least 2 points for a polyline"` ValueError from
`create_polyline`, and the Python `ZeroDivisionError` that
`create_wave_profile` can hit in its partial-slope step. -/
inductive CurveError where
  | discontinuity (i : ℕ)
  | notClosed
  | insufficientPoints
  | zeroDivision
deriving DecidableEq, Repr

/-- `point_distance` (core.py lines 69-73): `sqrt(dx**2 + dy**2)`. -/
noncomputable def point_distance (p1 p2 : Point) : ℝ :=
  Real.sqrt (((p2.x - p1.x : ℚ) : ℝ) ^ 2 + ((p2.y - p1.y : ℚ) : ℝ) ^ 2)

/-- Squared distance, in ℚ: used to decide the source's
`point_distance(...) > tolerance` comparisons exactly. -/
def point_sq_dist (p1 p2 : Point) : ℚ :=
  (p2.x - p1.x) ^ 2 + (p2.y - p1.y) ^ 2

/-- Decides `point_distance p1 p2 > tol` (see `distGT_eq_true_iff`):
for a nonnegative tolerance this is the squared comparison, and a
negative tolerance is always exceeded since distances are nonnegative. -/
def distGT (p1 p2 : Point) (tol : ℚ) : Bool :=
  if 0 ≤ tol then decide (tol ^ 2 < point_sq_dist p1 p2) else true

theorem point_distance_eq_sqrt (p1 p2 : Point) :
    point_distance p1 p2 = Real.sqrt ((point_sq_dist p1 p2 : ℚ) : ℝ) := by
  unfold point_distance point_sq_dist
  push_cast
  ring_nf

theorem point_sq_dist_nonneg (p1 p2 : Point) : 0 ≤ point_sq_dist p1 p2 := by
  unfold point_sq_dist
  positivity

theorem point_distance_nonneg (p1 p2 : Point) : 0 ≤ point_distance p1 p2 :=
  Real.sqrt_nonneg _

theorem distGT_eq_true_iff (p1 p2 : Point) (tol : ℚ) :
    distGT p1 p2 tol = true ↔ (tol : ℝ) < point_distance p1 p2 := by
  unfold distGT
  rw [point_distance_eq_sqrt]
  by_cases h : 0 ≤ tol
  · simp only [if_pos h, decide_eq_true_eq]
    rw [Real.lt_sqrt (by exact_mod_cast h)]
    exact_mod_cast Iff.rfl
  · simp only [if_neg h]
    constructor
    · intro _
      calc (tol : ℝ) < 0 := by exact_mod_cast lt_of_not_le h
        _ ≤ _ := Real.sqrt_nonneg _
    · intro _; trivial

theorem distGT_self_eq_false (p : Point) (tol : ℚ) (htol : 0 ≤ tol) :
    distGT p p tol = false := by
  unfold distGT
  simp only [if_pos htol, decide_eq_false_iff_not, not_lt]
  unfold point_sq_dist
  simp only [sub_self]
  nlinarith [sq_nonneg tol]

/-- The pairwise-continuity loop of `validate_curve`
(core.py lines 130-135): compare `elements[i].end` with
`elements[i+1].start`, raising `discontinuity i` at the first gap
beyond tolerance. `i` is the index of the left element. -/
def checkAdjacent : List Segment → ℚ → ℕ → Except CurveError Unit
  | [], _, _ => .ok ()
  | [_], _, _ => .ok ()
  | a :: b :: rest, tol, i =>
    if distGT a.endP b.startP tol then .error (.discontinuity i)
    else checkAdjacent (b :: rest) tol (i + 1)

/-- `validate_curve` (core.py lines 126-144): the pairwise continuity
loop, then the closure check for closed curves with nonempty elements. -/
def validate_curve (c : Curve) (tol : ℚ) : Except CurveError Unit :=
  match checkAdjacent c.elements tol 0 with
  | .error e => .error e
  | .ok _ =>
    if c.curve_type = "closed" ∧ c.elements ≠ [] then
      if distGT (c.elements.headI.startP) (c.elements.getLastD default).endP tol
      then .error .notClosed
      else .ok ()
    else .ok ()

/-- `create_curve` (core.py lines 35-58): build the record, then
validate it (with the default tolerance `1e-6`); a validation failure
propagates, otherwise the curve is returned. -/
def create_curve (elements : List Segment) (curve_type : String)
    (name material : Option String) : Except CurveError Curve :=
  match validate_curve ⟨elements, curve_type, name, material⟩ (1 / 1000000) with
  | .error e => .error e
  | .ok _ => .ok ⟨elements, curve_type, name, material⟩

/-- The consecutive-pairs loop of `create_polyline`
(factories.py lines 62-64): one line segment per adjacent point pair. -/
def segsBetween : List Point → List Segment
  | p :: q :: rest => Segment.line p q :: segsBetween (q :: rest)
  | _ => []

/-- The element list built by `create_polyline` (factories.py
lines 62-68): consecutive segments, plus for `closed=True` the closing
segment from the last point back to the first. -/
def polyElements (points : List Point) (closed : Bool) : List Segment :=
  segsBetween points ++
    (if closed then [Segment.line (points.getLastD default) points.headI] else [])

/-- `create_polyline` (factories.py lines 56-73): fewer than 2 points
raises the `"Need at least 2 points"` ValueError; otherwise the
segments are assembled and passed to `create_curve`. -/
def create_polyline (points : List Point) (closed : Bool)
    (name : Option String) : Except CurveError Curve :=
  if points.length < 2 then .error .insufficientPoints
  else create_curve (polyElements points closed)
    (if closed then ("closed") else ("open")) name none

/-- Adjacent segments share a point exactly: `elements[i].end ==
elements[i+1].start` for every adjacent pair. -/
def WellChained : List Segment → Prop
  | a :: b :: rest => a.endP = b.startP ∧ WellChained (b :: rest)
  | _ => True

theorem checkAdjacent_ok_of_wellChained (l : List Segment) (tol : ℚ)
    (htol : 0 ≤ tol) (hw : WellChained l) :
    ∀ i, checkAdjacent l tol i = .ok () := by
  induction l with
  | nil => intro i; rfl
  | cons a rest ih =>
    intro i
    match rest, hw with
    | [], _ => rfl
    | b :: rest', ⟨hab, hw'⟩ =>
      unfold checkAdjacent
      rw [hab, distGT_self_eq_false _ _ htol]
      simp only [Bool.false_eq_true, if_false]
      exact ih hw' (i + 1)

theorem wellChained_segsBetween (pts : List Point) :
    WellChained (segsBetween pts) := by
  match pts with
  | [] => trivial
  | [_] => trivial
  | p :: q :: rest =>
    have ih := wellChained_segsBetween (q :: rest)
    match rest with
    | [] => trivial
    | r :: rest' => exact ⟨rfl, ih⟩

/-- Appending any closing segment that starts at the last point keeps
the chain exact; the closing target is irrelevant to continuity. -/
theorem wellChained_segsBetween_append (pts : List Point) (z : Point) :
    WellChained (segsBetween pts ++
      [Segment.line (pts.getLastD default) z]) := by
  match pts with
  | [] => trivial
  | [_] => trivial
  | [p, q] => exact ⟨rfl, trivial⟩
  | p :: q :: r :: rest =>
    have ih := wellChained_segsBetween_append (q :: r :: rest) z
    have hlast : ((q :: r :: rest).getLastD default) =
        ((p :: q :: r :: rest).getLastD default) := by
      simp [List.getLastD_cons]
    rw [hlast] at ih
    exact ⟨rfl, ih⟩

theorem validate_polyElements_ok (pts : List Point) (closed : Bool)
    (name material : Option String) (tol : ℚ) (htol : 0 ≤ tol)
    (h2 : 2 ≤ pts.length) :
    validate_curve
      ⟨polyElements pts closed, (if closed then ("closed") else ("open")),
        name, material⟩ tol = .ok () := by
  obtain ⟨p, q, rest, rfl⟩ : ∃ p q rest, pts = p :: q :: rest := by
    match pts, h2 with
    | p :: q :: rest, _ => exact ⟨p, q, rest, rfl⟩
  have hadj : checkAdjacent (polyElements (p :: q :: rest) closed) tol 0 = .ok () := by
    apply checkAdjacent_ok_of_wellChained _ _ htol
    cases closed
    · simpa [polyElements] using wellChained_segsBetween (p :: q :: rest)
    · simpa [polyElements] using
        wellChained_segsBetween_append (p :: q :: rest) (p :: q :: rest).headI
  unfold validate_curve
  rw [hadj]
  cases closed
  · have : ¬ ((if (false : Bool) then ("closed") else ("open")) = "closed" ∧
        polyElements (p :: q :: rest) false ≠ ([] : List Segment)) := by
      intro hc
      exact absurd hc.1 (by decide)
    rw [if_neg this]
  · have hne : polyElements (p :: q :: rest) true ≠ [] := by
      simp [polyElements, segsBetween]
    have hhead : (polyElements (p :: q :: rest) true).headI.startP = p := by
      simp [polyElements, segsBetween, Segment.startP]
    have hlast : ((polyElements (p :: q :: rest) true).getLastD default).endP = p := by
      simp [polyElements, Segment.endP, List.headI]
    have hcond : ((if (true : Bool) then ("closed") else ("open")) = "closed" ∧
        polyElements (p :: q :: rest) true ≠ ([] : List Segment)) := ⟨rfl, hne⟩
    rw [if_pos hcond, hhead, hlast, distGT_self_eq_false _ _ htol]
    rfl

theorem create_polyline_eq_ok (pts : List Point) (closed : Bool)
    (name : Option String) (h2 : 2 ≤ pts.length) :
    create_polyline pts closed name =
      .ok ⟨polyElements pts closed, (if closed then ("closed") else ("open")),
        name, none⟩ := by
  unfold create_polyline
  rw [if_neg (by omega)]
  unfold create_curve
  rw [validate_polyElements_ok pts closed name none _ (by norm_num) h2]

/-- The per-wave loop of `create_wave_profile` (factories.py
lines 160-181): each iteration advances the cursor through the
top-flat, descending-slope, bottom-flat and ascending-slope steps,
emitting four points; returns the emitted points and the final cursor.
`sswto` is `side_slope_width - top_offset`. -/
def waveLoop (tpw sswto bw h : ℚ) : ℕ → ℚ → List Point × ℚ
  | 0, x => ([], x)
  | n + 1, x =>
    let x1 := x + tpw
    let x2 := x1 + sswto
    let x3 := x2 + bw
    let x4 := x3 + sswto
    let r := waveLoop tpw sswto bw h n x4
    (⟨x1, h⟩ :: ⟨x2, 0⟩ :: ⟨x3, 0⟩ :: ⟨x4, h⟩ :: r.1, r.2)

/-- The point list of `create_wave_profile` (factories.py
lines 142-197): the initial point (only when at least one wave is
emitted), the whole-wave points, and the partial-wave remainder
handling.  The Python float division in the partial-slope step raises
`ZeroDivisionError` when `side_slope_width == top_offset`, modelled as
`CurveError.zeroDivision`. -/
def wave_points (total_width wave_width bottom_width top_width height : ℚ) :
    Except CurveError (List Point) :=
  let side_slope_width := (wave_width - bottom_width) / 2
  let top_offset := (bottom_width - top_width) / 2
  let sswto := side_slope_width - top_offset
  let num_waves : ℕ := (⌊total_width / wave_width⌋).toNat
  let remainder : ℚ := total_width - wave_width * ((⌊total_width / wave_width⌋ : ℤ) : ℚ)
  let start_x : ℚ := -top_width / 2
  let lp := waveLoop top_width sswto bottom_width height num_waves start_x
  let base := (if num_waves = 0 then [] else [(⟨start_x, height⟩ : Point)]) ++ lp.1
  let current_x := lp.2
  if 0 < remainder ∧ 0 < num_waves then
    if top_width ≤ remainder then
      if 0 < remainder - top_width then
        if sswto = 0 then .error .zeroDivision
        else
          .ok (base ++ [⟨current_x + top_width, height⟩,
            ⟨current_x + top_width + (remainder - top_width),
              height * (1 - min ((remainder - top_width) / sswto) 1)⟩])
      else .ok (base ++ [⟨current_x + top_width, height⟩])
    else
      if 0 < remainder then
        if sswto = 0 then .error .zeroDivision
        else
          .ok (base ++ [⟨current_x + remainder,
            height * (1 - min (remainder / sswto) 1)⟩])
      else .ok base
  else .ok base

/-- `create_wave_profile` (factories.py lines 130-200): compute the
wave points, then build an open polyline from them. -/
def create_wave_profile (total_width wave_width bottom_width top_width height : ℚ)
    (name : Option String) : Except CurveError Curve :=
  match wave_points total_width wave_width bottom_width top_width height with
  | .error e => .error e
  | .ok pts => create_polyline pts false name

theorem waveLoop_fst_length (tpw sswto bw h : ℚ) (n : ℕ) (x : ℚ) :
    (waveLoop tpw sswto bw h n x).1.length = 4 * n := by
  induction n generalizing x with
  | zero => rfl
  | succ m ih =>
    simp only [waveLoop, List.length_cons, ih]
    omega

theorem wave_points_ok (tw ww bw tpw h : ℚ) (hww : 0 < ww) (hle : ww ≤ tw)
    (hslope : ww + tpw ≠ 2 * bw) :
    ∃ pts, wave_points tw ww bw tpw h = .ok pts ∧ 2 ≤ pts.length := by
  have hfl : (1 : ℤ) ≤ ⌊tw / ww⌋ := by
    rw [Int.le_floor]
    push_cast
    exact (one_le_div hww).mpr hle
  have hn0 : ¬ ((⌊tw / ww⌋).toNat = 0) := by omega
  have hss : ¬ ((ww - bw) / 2 - (bw - tpw) / 2 = 0) := by
    intro h0; apply hslope; linarith
  simp only [wave_points]
  simp only [if_neg hss, if_neg hn0]
  split_ifs with hc1 hc2 hc3 hc4
  all_goals refine ⟨_, rfl, ?_⟩
  all_goals simp only [List.length_append, List.length_cons, List.length_nil,
    waveLoop_fst_length]
  all_goals omega

theorem create_wave_profile_ok (tw ww bw tpw h : ℚ) (name : Option String)
    (hww : 0 < ww) (hle : ww ≤ tw) (hslope : ww + tpw ≠ 2 * bw) :
    ∃ c, create_wave_profile tw ww bw tpw h name = .ok c ∧
      c.curve_type = "open" ∧ validate_curve c (1 / 1000000) = .ok () := by
  obtain ⟨pts, hpts, hlen⟩ := wave_points_ok tw ww bw tpw h hww hle hslope
  refine ⟨⟨polyElements pts false,
    (if (false : Bool) then ("closed") else ("open")), name, none⟩, ?_, rfl, ?_⟩
  · unfold create_wave_profile
    rw [hpts]
    exact create_polyline_eq_ok pts false name hlen
  · exact validate_polyElements_ok pts false name none _ (by norm_num) hlen

theorem create_wave_profile_empty (tw ww bw tpw h : ℚ) (name : Option String)
    (htw : 0 < tw) (hlt : tw < ww) :
    create_wave_profile tw ww bw tpw h name = .error .insufficientPoints := by
  have hww : 0 < ww := htw.trans hlt
  have h0 : ⌊tw / ww⌋ = 0 := by
    rw [Int.floor_eq_zero_iff]
    constructor
    · positivity
    · rw [div_lt_one hww]; exact hlt
  unfold create_wave_profile
  have hwp : wave_points tw ww bw tpw h = .ok [] := by
    simp only [wave_points, h0]
    norm_num [waveLoop]
  rw [hwp]
  rfl

/-- Point-sequence reconstruction in `create_closed_wave_profile`
(factories.py lines 225-229): the first element contributes its start
and end; every later element contributes only its end. -/
def reconstructPoints : List Segment → List Point
  | [] => []
  | e :: rest => e.startP :: e.endP :: rest.map Segment.endP

/-- The uncapped branch of `create_closed_wave_profile` (factories.py
lines 258-272): the corrugation points as-is, squared off against the
baseline `y = 0` (skipping closure points already on the baseline). -/
def uncappedPoints (corr : List Point) : List Point :=
  let last_point := corr.getLastD default
  let first_point := corr.headI
  (corr ++ (if last_point.y ≠ 0 then [(⟨last_point.x, 0⟩ : Point)] else [])) ++
    (if first_point.y ≠ 0 then [(⟨first_point.x, 0⟩ : Point)] else [])

/-- The point list built by `create_closed_wave_profile`
(factories.py lines 234-272) from the reconstructed corrugation
points: the capped branch (depth given and `depth > height`) or the
uncapped branch. -/
def closedWavePoints (corr : List Point) (depth : Option ℚ) (height : ℚ) :
    List Point :=
  match depth with
  | some d =>
    if height < d then
      let first_point := corr.headI
      let last_point := corr.getLastD default
      ⟨first_point.x, d⟩ :: ⟨last_point.x, d⟩ :: ⟨last_point.x, last_point.y⟩ ::
        (corr.reverse ++ [(⟨first_point.x, first_point.y⟩ : Point)])
    else uncappedPoints corr
  | none => uncappedPoints corr

/-- The tail of `create_closed_wave_profile` after the corrugation
points are reconstructed (factories.py lines 231-274): the empty-list
guard, then the closed polyline factory call. -/
def closedWaveFromCorr (corr : List Point) (height : ℚ) (depth : Option ℚ)
    (name : Option String) : Except CurveError Curve :=
  if corr = [] then create_polyline [] true name
  else create_polyline (closedWavePoints corr depth height) true name

/-- `create_closed_wave_profile` (factories.py lines 203-274): build
the open wave profile (errors propagate), reconstruct its points, and
build the closed boundary. -/
def create_closed_wave_profile (total_width wave_width bottom_width top_width
    height : ℚ) (depth : Option ℚ) (name : Option String) :
    Except CurveError Curve :=
  match create_wave_profile total_width wave_width bottom_width top_width
      height name with
  | .error e => .error e
  | .ok op => closedWaveFromCorr (reconstructPoints op.elements) height depth name

/-- `arc_radius` (core.py lines 81-83): distance from start to center;
only the start point is used. -/
noncomputable def arc_radius (a : ArcSeg) : ℝ := point_distance a.start a.center

/-- `np.arctan2 y x`, modelled as the argument of the complex number
`x + i y`, which lies in `(-π, π]` like the float atan2. -/
noncomputable def atan2 (y x : ℝ) : ℝ := Complex.arg ⟨x, y⟩

theorem atan2_mem_Ioc (y x : ℝ) : atan2 y x ∈ Set.Ioc (-Real.pi) Real.pi :=
  Complex.arg_mem_Ioc _

/-- `arc_angle` (core.py lines 86-98): difference of the atan2 angles,
adjusted by `±2π` according to the clockwise flag, absolute value. -/
noncomputable def arc_angle (a : ArcSeg) : ℝ :=
  let start_angle := atan2 ((a.start.y - a.center.y : ℚ) : ℝ)
    ((a.start.x - a.center.x : ℚ) : ℝ)
  let end_angle := atan2 ((a.endP.y - a.center.y : ℚ) : ℝ)
    ((a.endP.x - a.center.x : ℚ) : ℝ)
  let angle := end_angle - start_angle
  let adjusted := if a.clockwise then
      (if 0 < angle then angle - 2 * Real.pi else angle)
    else
      (if angle < 0 then angle + 2 * Real.pi else angle)
  |adjusted|

/-- The coordinate transform returned by `_create_transform`
(visualization.py lines 292-298): a uniform scale with offsets, plus
the carried `scale` attribute used for radius conversion. -/
structure Transform where
  scale : ℝ
  offset_x : ℝ
  offset_y : ℝ

/-- Application of the transform closure (visualization.py
lines 292-295): `svg_x = x*scale + offset_x`,
`svg_y = -y*scale + offset_y` (Y axis flipped). -/
noncomputable def applyT (t : Transform) (p : Point) : ℝ × ℝ :=
  ((p.x : ℝ) * t.scale + t.offset_x, -(p.y : ℝ) * t.scale + t.offset_y)

/-- An SVG path command as emitted by `_curve_to_svg_path`
(visualization.py lines 198-231), with exact (unformatted) payloads. -/
inductive PathCmd where
  | moveTo (x y : ℝ)
  | lineTo (x y : ℝ)
  | arcTo (radius : ℝ) (large_arc_flag sweep_flag : ℕ) (x y : ℝ)
  | closePath

/-- Commands emitted for the element at index `i`
(visualization.py lines 202-225): a move-to for the first element
only, then a line-to or an arc command. -/
noncomputable def emitElement (t : Transform) (i : ℕ) : Segment → List PathCmd
  | .line s e =>
    (if i = 0 then [PathCmd.moveTo (applyT t s).1 (applyT t s).2] else []) ++
      [PathCmd.lineTo (applyT t e).1 (applyT t e).2]
  | .arc a =>
    (if i = 0 then
      [PathCmd.moveTo (applyT t a.start).1 (applyT t a.start).2] else []) ++
      [PathCmd.arcTo (arc_radius a * t.scale)
        (if Real.pi < arc_angle a then 1 else 0)
        (if a.clockwise then 0 else 1)
        (applyT t a.endP).1 (applyT t a.endP).2]

/-- The `for i, element in enumerate(...)` loop of
`_curve_to_svg_path`. -/
noncomputable def emitLoop (t : Transform) : ℕ → List Segment → List PathCmd
  | _, [] => []
  | i, e :: rest => emitElement t i e ++ emitLoop t (i + 1) rest

/-- `_curve_to_svg_path` (visualization.py lines 198-231): the element
commands, then a close-path command for closed curves. -/
noncomputable def curve_to_svg_path (c : Curve) (t : Transform) : List PathCmd :=
  emitLoop t 0 c.elements ++
    (if c.curve_type = "closed" then [PathCmd.closePath] else [])

/-- Bounding box (visualization.py `_calculate_bounds` result). -/
structure Bounds where
  min_x : ℝ
  max_x : ℝ
  min_y : ℝ
  max_y : ℝ

/-- The point collection of `_calculate_bounds` (visualization.py
lines 237-251): every segment contributes start and end; arcs
additionally contribute the four cardinal extrema of their circle. -/
noncomputable def boundPoints (curves : List Curve) : List (ℝ × ℝ) :=
  curves.flatMap fun c => c.elements.flatMap fun e =>
    [(((e.startP.x : ℝ)), ((e.startP.y : ℝ))),
     (((e.endP.x : ℝ)), ((e.endP.y : ℝ)))] ++
    (match e with
     | .arc a =>
       [((a.center.x : ℝ) - arc_radius a, (a.center.y : ℝ)),
        ((a.center.x : ℝ) + arc_radius a, (a.center.y : ℝ)),
        ((a.center.x : ℝ), (a.center.y : ℝ) - arc_radius a),
        ((a.center.x : ℝ), (a.center.y : ℝ) + arc_radius a)]
     | .line _ _ => [])

/-- `_calculate_bounds` (visualization.py lines 233-264): fallback
`{0,1,0,1}` when no points were collected, otherwise the min/max of
the collected coordinates. -/
noncomputable def calculate_bounds (curves : List Curve) : Bounds :=
  match boundPoints curves with
  | [] => ⟨0, 1, 0, 1⟩
  | p :: rest =>
    ⟨(rest.map Prod.fst).foldl min p.1, (rest.map Prod.fst).foldl max p.1,
     (rest.map Prod.snd).foldl min p.2, (rest.map Prod.snd).foldl max p.2⟩

/-- `_create_transform` (visualization.py lines 266-298):
degenerate extents replaced by 1, 10% padding, uniform aspect-
preserving scale, content centered on the canvas. -/
noncomputable def create_transform (view_width view_height width height : ℝ)
    (b : Bounds) : Transform :=
  let data_width := b.max_x - b.min_x
  let data_height := b.max_y - b.min_y
  let data_width := if data_width = 0 then 1 else data_width
  let data_height := if data_height = 0 then 1 else data_height
  let padding : ℝ := 1 / 10
  let data_width := data_width * (1 + padding)
  let data_height := data_height * (1 + padding)
  let scale_x := view_width / data_width
  let scale_y := view_height / data_height
  let scale := min scale_x scale_y
  let center_x := (b.min_x + b.max_x) / 2
  let center_y := (b.min_y + b.max_y) / 2
  ⟨scale, width / 2 - center_x * scale, height / 2 + center_y * scale⟩

/-- Euclidean distance between canvas-space points. -/
noncomputable def svgDist (a b : ℝ × ℝ) : ℝ :=
  Real.sqrt ((b.1 - a.1) ^ 2 + (b.2 - a.2) ^ 2)

theorem checkAdjacent_error_shape : ∀ (l : List Segment) (tol : ℚ) (i : ℕ)
    (e : CurveError), checkAdjacent l tol i = .error e →
    ∃ j, e = CurveError.discontinuity j
  | [], _, _, _, h => by simp [checkAdjacent] at h
  | [_], _, _, _, h => by simp [checkAdjacent] at h
  | a :: b :: rest, tol, i, e, h => by
    unfold checkAdjacent at h
    by_cases hd : distGT a.endP b.startP tol
    · rw [if_pos hd] at h
      refine ⟨i, ?_⟩
      injection h with h'
      exact h'.symm
    · rw [if_neg hd] at h
      exact checkAdjacent_error_shape (b :: rest) tol (i + 1) e h

theorem validate_curve_error_shape (c : Curve) (tol : ℚ) (e : CurveError)
    (h : validate_curve c tol = .error e) :
    (∃ j, e = CurveError.discontinuity j) ∨ e = CurveError.notClosed := by
  unfold validate_curve at h
  generalize hca : checkAdjacent c.elements tol 0 = r at h
  match r with
  | .error e' =>
    injection h with h'
    exact Or.inl (h' ▸ checkAdjacent_error_shape c.elements tol 0 e' hca)
  | .ok _ =>
    split_ifs at h
    injection h with h'
    exact Or.inr h'.symm

theorem create_curve_ne_insufficient (elements : List Segment)
    (curve_type : String) (name material : Option String) :
    create_curve elements curve_type name material ≠
      .error .insufficientPoints := by
  unfold create_curve
  generalize hv : validate_curve ⟨elements, curve_type, name, material⟩
    (1 / 1000000) = r
  match r with
  | .error e =>
    intro h
    injection h with h'
    rcases validate_curve_error_shape _ _ _ hv with ⟨j, hj⟩ | hj <;>
      simp [h'] at hj
  | .ok _ => simp

theorem foldl_min_le_init {α : Type} [LinearOrder α] (l : List α) (a : α) :
    l.foldl min a ≤ a := by
  induction l generalizing a with
  | nil => exact le_refl a
  | cons b l ih =>
    calc (b :: l).foldl min a = l.foldl min (min a b) := rfl
      _ ≤ min a b := ih _
      _ ≤ a := min_le_left _ _

theorem foldl_min_le_mem {α : Type} [LinearOrder α] (l : List α) (a x : α)
    (hx : x ∈ l) : l.foldl min a ≤ x := by
  induction l generalizing a with
  | nil => cases hx
  | cons b l ih =>
    rcases List.mem_cons.mp hx with rfl | hx'
    · calc (x :: l).foldl min a = l.foldl min (min a x) := rfl
        _ ≤ min a x := foldl_min_le_init _ _
        _ ≤ x := min_le_right _ _
    · exact ih _ hx'

theorem foldl_min_attained {α : Type} [LinearOrder α] (l : List α) (a : α) :
    l.foldl min a = a ∨ l.foldl min a ∈ l := by
  induction l generalizing a with
  | nil => exact Or.inl rfl
  | cons b l ih =>
    rcases ih (min a b) with h | h
    · rcases min_choice a b with hm | hm
      · exact Or.inl (by rw [List.foldl_cons, h, hm])
      · exact Or.inr (by rw [List.foldl_cons, h, hm]; exact List.mem_cons_self _ _)
    · exact Or.inr (List.mem_cons_of_mem _ h)

theorem le_foldl_max_init {α : Type} [LinearOrder α] (l : List α) (a : α) :
    a ≤ l.foldl max a := by
  induction l generalizing a with
  | nil => exact le_refl a
  | cons b l ih =>
    calc a ≤ max a b := le_max_left _ _
      _ ≤ l.foldl max (max a b) := ih _
      _ = (b :: l).foldl max a := rfl

theorem le_foldl_max_mem {α : Type} [LinearOrder α] (l : List α) (a x : α)
    (hx : x ∈ l) : x ≤ l.foldl max a := by
  induction l generalizing a with
  | nil => cases hx
  | cons b l ih =>
    rcases List.mem_cons.mp hx with rfl | hx'
    · calc x ≤ max a x := le_max_right _ _
        _ ≤ l.foldl max (max a x) := le_foldl_max_init _ _
        _ = (x :: l).foldl max a := rfl
    · exact ih _ hx'

theorem foldl_max_attained {α : Type} [LinearOrder α] (l : List α) (a : α) :
    l.foldl max a = a ∨ l.foldl max a ∈ l := by
  induction l generalizing a with
  | nil => exact Or.inl rfl
  | cons b l ih =>
    rcases ih (max a b) with h | h
    · rcases max_choice a b with hm | hm
      · exact Or.inl (by rw [List.foldl_cons, h, hm])
      · exact Or.inr (by rw [List.foldl_cons, h, hm]; exact List.mem_cons_self _ _)
    · exact Or.inr (List.mem_cons_of_mem _ h)

theorem emitLoop_arc_mem (t : Transform) (a : ArcSeg) :
    ∀ (l : List Segment) (i : ℕ), Segment.arc a ∈ l →
    PathCmd.arcTo (arc_radius a * t.scale)
      (if Real.pi < arc_angle a then 1 else 0)
      (if a.clockwise then 0 else 1)
      (applyT t a.endP).1 (applyT t a.endP).2 ∈ emitLoop t i l
  | e :: rest, i, hmem => by
    rcases List.mem_cons.mp hmem with rfl | hmem'
    · unfold emitLoop emitElement
      exact List.mem_append_left _ (List.mem_append_right _ (List.mem_singleton.mpr rfl))
    · unfold emitLoop
      exact List.mem_append_right _ (emitLoop_arc_mem t a rest (i + 1) hmem')

theorem emitElement_no_close (t : Transform) (i : ℕ) (e : Segment) :
    PathCmd.closePath ∉ emitElement t i e := by
  cases e <;> unfold emitElement <;>
    (intro h; rcases List.mem_append.mp h with h' | h')
  all_goals first
    | (rcases List.mem_singleton.mp h' with h''; cases h'')
    | (split at h' <;> simp_all)

theorem emitLoop_no_close (t : Transform) :
    ∀ (l : List Segment) (i : ℕ), PathCmd.closePath ∉ emitLoop t i l
  | [], _ => by intro h; cases h
  | e :: rest, i => by
    intro h
    rcases List.mem_append.mp h with h' | h'
    · exact emitElement_no_close t i e h'
    · exact emitLoop_no_close t rest (i + 1) h'

theorem applyT_dist (t : Transform) (hs : 0 ≤ t.scale) (p q : Point) :
    svgDist (applyT t p) (applyT t q) = t.scale * point_distance p q := by
  unfold svgDist applyT point_distance
  have hsq : ((q.x : ℝ) * t.scale + t.offset_x -
        ((p.x : ℝ) * t.scale + t.offset_x)) ^ 2 +
      (-(q.y : ℝ) * t.scale + t.offset_y -
        (-(p.y : ℝ) * t.scale + t.offset_y)) ^ 2 =
      t.scale ^ 2 * (((q.x - p.x : ℚ) : ℝ) ^ 2 + ((q.y - p.y : ℚ) : ℝ) ^ 2) := by
    push_cast
    ring
  rw [hsq, Real.sqrt_mul (sq_nonneg _), Real.sqrt_sq hs]

theorem create_transform_scale_pos (vw vh w h : ℝ) (b : Bounds)
    (hvw : 0 < vw) (hvh : 0 < vh)
    (hx : b.min_x ≤ b.max_x) (hy : b.min_y ≤ b.max_y) :
    0 < (create_transform vw vh w h b).scale := by
  simp only [create_transform]
  refine lt_min (div_pos hvw ?_) (div_pos hvh ?_)
  · by_cases hdw : b.max_x - b.min_x = 0
    · rw [if_pos hdw]; norm_num
    · rw [if_neg hdw]
      have h0 : 0 < b.max_x - b.min_x :=
        lt_of_le_of_ne (by linarith) (Ne.symm hdw)
      nlinarith
  · by_cases hdh : b.max_y - b.min_y = 0
    · rw [if_pos hdh]; norm_num
    · rw [if_neg hdh]
      have h0 : 0 < b.max_y - b.min_y :=
        lt_of_le_of_ne (by linarith) (Ne.symm hdh)
      nlinarith

/-- Projection used to state concrete counterexamples: the element
list of a successfully built curve, `none` on error. -/
def curveElems : Except CurveError Curve → Option (List Segment)
  | .ok c => some c.elements
  | .error _ => none

/-- Projection: the corrugation points reconstructed from a built
curve, as `create_closed_wave_profile` does; `[]` on error. -/
def curveCorr : Except CurveError Curve → List Point
  | .ok c => reconstructPoints c.elements
  | .error _ => []

/-- C1 (counterexample): at the positive inputs `total_width = 1`,
`wave_width = 2`, `bottom_width = top_width = height = 1` (so
`wave_width > total_width`, `num_waves == 0`), `create_wave_profile`
does not return a curve: the empty point list trips the polyline
factory's two-point guard and the call raises
`InsufficientPointsError`, contradicting the claim that it returns a
validated open curve for every positive input. -/
theorem C1_cex_num_waves_zero :
    create_wave_profile 1 2 1 1 1 none = .error .insufficientPoints :=
  create_wave_profile_empty 1 2 1 1 1 none (by norm_num) (by norm_num)

/-- C1 (amended): for positive inputs with `wave_width ≤ total_width`
(at least one whole wave) and `wave_width + top_width ≠ 2*bottom_width`
(the partial-slope step does not divide by zero), `create_wave_profile`
returns a curve with curve_type "open" that passes the continuity
validation; when `wave_width > total_width` (`num_waves == 0`) it
instead raises `InsufficientPointsError`. -/
theorem C1_wave_profile_safety (tw ww bw tpw h : ℚ)
    (h1 : 0 < tw) (h2 : 0 < ww) (h3 : 0 < bw) (h4 : 0 < tpw) (h5 : 0 < h) :
    (ww ≤ tw → ww + tpw ≠ 2 * bw →
      ∃ c, create_wave_profile tw ww bw tpw h none = .ok c ∧
        c.curve_type = "open" ∧ validate_curve c (1 / 1000000) = .ok ()) ∧
    (tw < ww →
      create_wave_profile tw ww bw tpw h none = .error .insufficientPoints) := by
  constructor
  · intro hle hsl
    exact create_wave_profile_ok tw ww bw tpw h none h2 hle hsl
  · intro hlt
    exact create_wave_profile_empty tw ww bw tpw h none h1 hlt

/-- C1 (witness): the catalog profile 875/175/65/50/44 satisfies the
amended hypotheses and yields a validated open curve. -/
theorem C1_witness :
    ((0 : ℚ) < 875 ∧ (0 : ℚ) < 175 ∧ (0 : ℚ) < 65 ∧ (0 : ℚ) < 50 ∧
      (0 : ℚ) < 44 ∧ (175 : ℚ) ≤ 875 ∧ (175 : ℚ) + 50 ≠ 2 * 65) ∧
    ∃ c, create_wave_profile 875 175 65 50 44 none = .ok c ∧
      c.curve_type = "open" ∧ validate_curve c (1 / 1000000) = .ok () :=
  ⟨by norm_num,
   (C1_wave_profile_safety 875 175 65 50 44 (by norm_num) (by norm_num)
     (by norm_num) (by norm_num) (by norm_num)).1 (by norm_num) (by norm_num)⟩

/-- C6 (counterexample): a closed curve with exactly one element whose
start and end differ (one line segment from (0,0) to (1,0)) fails the
closure check of `validate_curve` at the default tolerance, so
validation of zero-or-one-element curves is not unconditional. -/
theorem C6_cex_one_element_closed :
    validate_curve ⟨[Segment.line ⟨0, 0⟩ ⟨1, 0⟩], ("closed"), none, none⟩
      (1 / 1000000) = .error .notClosed := by
  have hd : distGT (⟨0, 0⟩ : Point) (⟨1, 0⟩ : Point) (1 / 1000000) = true := by
    unfold distGT point_sq_dist
    rw [if_pos (by norm_num), decide_eq_true_eq]
    norm_num
  unfold validate_curve
  have hca : checkAdjacent [Segment.line ⟨0, 0⟩ ⟨1, 0⟩] (1 / 1000000) 0 =
      .ok () := rfl
  rw [hca, if_pos ⟨rfl, by simp⟩]
  show (if distGT (⟨0, 0⟩ : Point) (⟨1, 0⟩ : Point) (1 / 1000000) = true then
      Except.error CurveError.notClosed else Except.ok ()) =
    Except.error CurveError.notClosed
  rw [hd]
  simp

/-- C6 (amended): for a curve with at most one element, validation
succeeds iff either the curve is not closed, or its (single) element's
start and end are within tolerance — zero-element curves always pass,
one-element open curves always pass, and one-element closed curves
pass exactly when start and end coincide up to the tolerance. -/
theorem C6_validate_small (c : Curve) (tol : ℚ) (hlen : c.elements.length ≤ 1) :
    validate_curve c tol = .ok () ↔
      (c.curve_type = "closed" →
        ∀ e ∈ c.elements, point_distance e.startP e.endP ≤ (tol : ℝ)) := by
  obtain ⟨els, ct, nm, mat⟩ := c
  match els, hlen with
  | [], _ =>
    apply iff_of_true
    · unfold validate_curve checkAdjacent
      simp
    · intro _ e he
      cases he
  | [e], _ =>
    unfold validate_curve checkAdjacent
    by_cases hct : ct = "closed"
    · rw [if_pos ⟨hct, by simp⟩]
      show ((if distGT e.startP e.endP tol = true then
          Except.error CurveError.notClosed else Except.ok ()) =
        Except.ok ()) ↔ _
      by_cases hd : distGT e.startP e.endP tol = true
      · rw [if_pos hd]
        apply iff_of_false (by simp)
        intro hcl
        have h1 := (distGT_eq_true_iff e.startP e.endP tol).mp hd
        have h2 := hcl hct e (List.mem_singleton.mpr rfl)
        linarith
      · rw [if_neg hd]
        apply iff_of_true rfl
        intro _ e' he'
        rcases List.mem_singleton.mp he' with rfl
        have h1 := (distGT_eq_true_iff e'.startP e'.endP tol).not.mp hd
        linarith [not_lt.mp h1]
    · rw [if_neg (fun hc => hct hc.1)]
      apply iff_of_true rfl
      intro hcl
      exact absurd hcl hct

/-- C6 (witness): a one-element open curve has at most one element and
its validation outcome matches the amended criterion. -/
theorem C6_witness :
    (([Segment.line ⟨0, 0⟩ ⟨1, 0⟩] : List Segment).length ≤ 1) ∧
    (validate_curve ⟨[Segment.line ⟨0, 0⟩ ⟨1, 0⟩], ("open"), none, none⟩
        (1 / 1000000) = .ok () ↔
      ((Curve.mk [Segment.line ⟨0, 0⟩ ⟨1, 0⟩] ("open") none none).curve_type =
          "closed" →
        ∀ e ∈ (Curve.mk [Segment.line ⟨0, 0⟩ ⟨1, 0⟩] ("open")
            none none).elements,
          point_distance e.startP e.endP ≤ ((1 / 1000000 : ℚ) : ℝ))) :=
  ⟨by norm_num,
   C6_validate_small ⟨[Segment.line ⟨0, 0⟩ ⟨1, 0⟩], ("open"), none, none⟩
     (1 / 1000000) (by norm_num)⟩

/-- C7: contrary to the spec's "return an empty closed curve without
error", the empty-corrugation branch of the closed-profile builder
calls `create_polyline([], closed=True)`, whose two-point guard raises
`InsufficientPointsError`; no empty curve is ever returned.  (The
branch is also unreachable from the public API: `create_wave_profile`
itself raises before producing an empty element list.) -/
theorem C7_empty_corr_raises (height : ℚ) (depth : Option ℚ)
    (name : Option String) :
    closedWaveFromCorr [] height depth name = .error .insufficientPoints := rfl

/-- C8: the polyline factory raises `InsufficientPointsError` exactly
when given fewer than 2 points, for either value of the closed flag;
with 2 or more points that error can never be produced. -/
theorem C8_polyline_insufficient_iff (pts : List Point) (closed : Bool)
    (name : Option String) :
    create_polyline pts closed name = .error .insufficientPoints ↔
      pts.length < 2 := by
  match pts with
  | [] => exact iff_of_true rfl (by norm_num)
  | [p] => exact iff_of_true rfl (by norm_num)
  | p :: q :: rest =>
    apply iff_of_false
    · unfold create_polyline
      rw [if_neg (by simp only [List.length_cons]; omega)]
      exact create_curve_ne_insufficient _ _ _ _
    · simp only [List.length_cons]
      omega

/-- C8 (witness): instantiation at the empty list. -/
theorem C8_witness :
    create_polyline ([] : List Point) false none =
        .error .insufficientPoints ↔ ([] : List Point).length < 2 :=
  C8_polyline_insufficient_iff [] false none

/-- C9: with 2 or more points (any coordinates, either closed flag)
the polyline factory always succeeds: the generated adjacent segments
share their endpoints exactly, and construction-time validation
passes. -/
theorem C9_polyline_always_validates (pts : List Point) (closed : Bool)
    (name : Option String) (h2 : 2 ≤ pts.length) :
    ∃ c, create_polyline pts closed name = .ok c ∧
      c.curve_type = (if closed then ("closed") else ("open")) ∧
      WellChained c.elements ∧ validate_curve c (1 / 1000000) = .ok () := by
  refine ⟨_, create_polyline_eq_ok pts closed name h2, rfl, ?_,
    validate_polyElements_ok pts closed name none _ (by norm_num) h2⟩
  cases closed
  · simpa [polyElements] using wellChained_segsBetween pts
  · simpa [polyElements] using wellChained_segsBetween_append pts pts.headI

/-- C9 (witness): a two-point closed polyline. -/
theorem C9_witness :
    2 ≤ ([⟨0, 0⟩, ⟨1, 0⟩] : List Point).length ∧
    ∃ c, create_polyline [⟨0, 0⟩, ⟨1, 0⟩] true none = .ok c ∧
      c.curve_type = (if true then ("closed") else ("open")) ∧
      WellChained c.elements ∧ validate_curve c (1 / 1000000) = .ok () :=
  ⟨by norm_num,
   C9_polyline_always_validates [⟨0, 0⟩, ⟨1, 0⟩] true none (by norm_num)⟩

/-- C2 (amended): in capped mode (`depth > height`, nonempty
corrugation list) the closed-profile builder emits exactly, in order:
`(first.x, depth)`, `(last.x, depth)`, `(last.x, last.y)`, the
corrugation points in reverse order, and then one further point
`(first.x, first.y)` (a copy of the first corrugation point) before
the implicit closing edge added by the closed polyline factory; the
resulting closed curve is built from exactly these points. -/
theorem C2_capped_profile (corr : List Point) (d hgt : ℚ)
    (name : Option String) (hne : corr ≠ []) (hd : hgt < d) :
    ∃ c, closedWaveFromCorr corr hgt (some d) name = .ok c ∧
      c.curve_type = "closed" ∧
      c.elements = polyElements
        (⟨corr.headI.x, d⟩ :: ⟨(corr.getLastD default).x, d⟩ ::
          ⟨(corr.getLastD default).x, (corr.getLastD default).y⟩ ::
          (corr.reverse ++ [(⟨corr.headI.x, corr.headI.y⟩ : Point)])) true := by
  unfold closedWaveFromCorr
  rw [if_neg hne]
  have hpts : closedWavePoints corr (some d) hgt =
      ⟨corr.headI.x, d⟩ :: ⟨(corr.getLastD default).x, d⟩ ::
        ⟨(corr.getLastD default).x, (corr.getLastD default).y⟩ ::
        (corr.reverse ++ [(⟨corr.headI.x, corr.headI.y⟩ : Point)]) := by
    simp only [closedWavePoints]
    rw [if_pos hd]
  rw [hpts]
  have hlen : 2 ≤ (⟨corr.headI.x, d⟩ :: ⟨(corr.getLastD default).x, d⟩ ::
      ⟨(corr.getLastD default).x, (corr.getLastD default).y⟩ ::
      (corr.reverse ++ [(⟨corr.headI.x, corr.headI.y⟩ : Point)])).length := by
    simp only [List.length_cons]
    omega
  exact ⟨_, create_polyline_eq_ok _ true name hlen, rfl, rfl⟩

/-- C2 (witness): a concrete two-point corrugation list with depth 2
and height 1. -/
theorem C2_witness :
    (([⟨0, 0⟩, ⟨1, 1⟩] : List Point) ≠ []) ∧ ((1 : ℚ) < 2) ∧
    ∃ c, closedWaveFromCorr [⟨0, 0⟩, ⟨1, 1⟩] 1 (some 2) none = .ok c ∧
      c.curve_type = "closed" ∧
      c.elements = polyElements
        (⟨([⟨0, 0⟩, ⟨1, 1⟩] : List Point).headI.x, 2⟩ ::
          ⟨(([⟨0, 0⟩, ⟨1, 1⟩] : List Point).getLastD default).x, 2⟩ ::
          ⟨(([⟨0, 0⟩, ⟨1, 1⟩] : List Point).getLastD default).x,
            (([⟨0, 0⟩, ⟨1, 1⟩] : List Point).getLastD default).y⟩ ::
          (([⟨0, 0⟩, ⟨1, 1⟩] : List Point).reverse ++
            [(⟨([⟨0, 0⟩, ⟨1, 1⟩] : List Point).headI.x,
              ([⟨0, 0⟩, ⟨1, 1⟩] : List Point).headI.y⟩ : Point)])) true :=
  ⟨by simp, by norm_num,
   C2_capped_profile [⟨0, 0⟩, ⟨1, 1⟩] 2 1 none (by simp) (by norm_num)⟩

/-- C2 (counterexample): for the wave profile with
`total_width = wave_width = 2`, `bottom_width = top_width = height = 1`
the reconstructed corrugation list is the five points below, and in
capped mode (`depth = 2`) the emitted point list is NOT just
`(first.x, depth), (last.x, depth), (last.x, last.y)` followed by the
reversed corrugation: the code appends one further point, so the claim
"and nothing else" fails. -/
theorem C2_cex_extra_point :
    curveCorr (create_wave_profile 2 2 1 1 1 none) =
      [⟨-(1/2), 1⟩, ⟨1/2, 1⟩, ⟨1, 0⟩, ⟨2, 0⟩, ⟨5/2, 1⟩] ∧
    closedWavePoints [⟨-(1/2), 1⟩, ⟨1/2, 1⟩, ⟨1, 0⟩, ⟨2, 0⟩, ⟨5/2, 1⟩]
        (some 2) 1 ≠
      ⟨-(1/2), 2⟩ :: ⟨5/2, 2⟩ :: ⟨5/2, 1⟩ ::
        ([⟨-(1/2), 1⟩, ⟨1/2, 1⟩, ⟨1, 0⟩, ⟨2, 0⟩, ⟨5/2, 1⟩] :
          List Point).reverse := by
  constructor
  · have hfl : ⌊(2 : ℚ) / 2⌋ = 1 := by norm_num
    have hwp : wave_points 2 2 1 1 1 =
        .ok [⟨-(1/2), 1⟩, ⟨1/2, 1⟩, ⟨1, 0⟩, ⟨2, 0⟩, ⟨5/2, 1⟩] := by
      simp only [wave_points, hfl]
      norm_num [waveLoop, Point.mk.injEq]
    have hcp : create_wave_profile 2 2 1 1 1 none =
        .ok ⟨polyElements [⟨-(1/2), 1⟩, ⟨1/2, 1⟩, ⟨1, 0⟩, ⟨2, 0⟩, ⟨5/2, 1⟩] false,
          (if (false : Bool) then ("closed") else ("open")), none, none⟩ := by
      unfold create_wave_profile
      rw [hwp]
      exact create_polyline_eq_ok _ false none (by simp)
    rw [hcp]
    simp [curveCorr, polyElements, segsBetween, reconstructPoints,
      Segment.startP, Segment.endP]
  · intro h
    have hlen := congrArg List.length h
    simp only [closedWavePoints, if_pos (by norm_num : (1 : ℚ) < 2),
      List.length_cons, List.length_append, List.length_reverse,
      List.length_singleton] at hlen
    omega

/-- C3: for every arc segment (any start, end, center and either
clockwise flag), `arc_angle` lies in the closed interval `[0, 2π]`;
in particular it is never negative. -/
theorem C3_arc_angle_range (a : ArcSeg) :
    arc_angle a ∈ Set.Icc 0 (2 * Real.pi) := by
  have hs := atan2_mem_Ioc ((a.start.y - a.center.y : ℚ) : ℝ)
    ((a.start.x - a.center.x : ℚ) : ℝ)
  have he := atan2_mem_Ioc ((a.endP.y - a.center.y : ℚ) : ℝ)
    ((a.endP.x - a.center.x : ℚ) : ℝ)
  rw [Set.mem_Ioc] at hs he
  have hpi := Real.pi_pos
  rw [Set.mem_Icc]
  simp only [arc_angle]
  refine ⟨abs_nonneg _, ?_⟩
  rw [abs_le]
  constructor <;> split_ifs <;> linarith [hs.1, hs.2, he.1, he.2]

/-- C4: path emission maps each Arc element to an arc command whose
radius is `arc_radius * transform.scale`, whose large-arc flag is 1
iff `arc_angle > π`, and whose sweep flag is 0 iff the clockwise flag
is set; and a close-path command appears in the output iff the curve's
type is "closed". -/
theorem C4_svg_path_arcs_and_close (c : Curve) (t : Transform) :
    (∀ a : ArcSeg, Segment.arc a ∈ c.elements →
      PathCmd.arcTo (arc_radius a * t.scale)
        (if Real.pi < arc_angle a then 1 else 0)
        (if a.clockwise then 0 else 1)
        (applyT t a.endP).1 (applyT t a.endP).2 ∈ curve_to_svg_path c t) ∧
    (PathCmd.closePath ∈ curve_to_svg_path c t ↔ c.curve_type = "closed") := by
  constructor
  · intro a ha
    unfold curve_to_svg_path
    exact List.mem_append_left _ (emitLoop_arc_mem t a c.elements 0 ha)
  · unfold curve_to_svg_path
    constructor
    · intro hmem
      rcases List.mem_append.mp hmem with hmem' | hmem'
      · exact absurd hmem' (emitLoop_no_close t c.elements 0)
      · by_cases hct : c.curve_type = "closed"
        · exact hct
        · rw [if_neg hct] at hmem'
          cases hmem'
    · intro hct
      rw [if_pos hct]
      exact List.mem_append_right _ (List.mem_singleton.mpr rfl)

/-- C4 (witness): a one-arc closed curve under the identity-scale
transform. -/
theorem C4_witness :
    (Segment.arc ⟨⟨0, 0⟩, ⟨1, 1⟩, ⟨0, 1⟩, true⟩ ∈
      (Curve.mk [Segment.arc ⟨⟨0, 0⟩, ⟨1, 1⟩, ⟨0, 1⟩, true⟩]
        ("closed") none none).elements) ∧
    PathCmd.arcTo (arc_radius ⟨⟨0, 0⟩, ⟨1, 1⟩, ⟨0, 1⟩, true⟩ *
        (Transform.mk 1 0 0).scale)
      (if Real.pi < arc_angle ⟨⟨0, 0⟩, ⟨1, 1⟩, ⟨0, 1⟩, true⟩ then 1 else 0)
      (if (ArcSeg.mk ⟨0, 0⟩ ⟨1, 1⟩ ⟨0, 1⟩ true).clockwise then 0 else 1)
      (applyT (Transform.mk 1 0 0)
        (ArcSeg.mk ⟨0, 0⟩ ⟨1, 1⟩ ⟨0, 1⟩ true).endP).1
      (applyT (Transform.mk 1 0 0)
        (ArcSeg.mk ⟨0, 0⟩ ⟨1, 1⟩ ⟨0, 1⟩ true).endP).2 ∈
      curve_to_svg_path
        (Curve.mk [Segment.arc ⟨⟨0, 0⟩, ⟨1, 1⟩, ⟨0, 1⟩, true⟩]
          ("closed") none none) (Transform.mk 1 0 0) :=
  ⟨List.mem_singleton.mpr rfl,
   (C4_svg_path_arcs_and_close
      (Curve.mk [Segment.arc ⟨⟨0, 0⟩, ⟨1, 1⟩, ⟨0, 1⟩, true⟩] ("closed")
        none none)
      (Transform.mk 1 0 0)).1 ⟨⟨0, 0⟩, ⟨1, 1⟩, ⟨0, 1⟩, true⟩
    (List.mem_singleton.mpr rfl)⟩

theorem calculate_bounds_cons (q : ℝ × ℝ) (rest : List (ℝ × ℝ))
    (curves : List Curve) (hbp : boundPoints curves = q :: rest) :
    calculate_bounds curves =
      ⟨(rest.map Prod.fst).foldl min q.1, (rest.map Prod.fst).foldl max q.1,
       (rest.map Prod.snd).foldl min q.2, (rest.map Prod.snd).foldl max q.2⟩ := by
  unfold calculate_bounds
  rw [hbp]

/-- C5: `calculate_bounds` collects the start and end of every
segment, plus the four cardinal extrema of every arc, and returns the
componentwise min/max of the collected points (each bound is both a
bound for and attained by a collected point); with no collected points
(e.g. the empty list) it returns the fallback `{0, 1, 0, 1}`. -/
theorem C5_calculate_bounds (curves : List Curve) :
    (boundPoints curves = [] → calculate_bounds curves = ⟨0, 1, 0, 1⟩) ∧
    (∀ p ∈ boundPoints curves,
      (calculate_bounds curves).min_x ≤ p.1 ∧
      p.1 ≤ (calculate_bounds curves).max_x ∧
      (calculate_bounds curves).min_y ≤ p.2 ∧
      p.2 ≤ (calculate_bounds curves).max_y) ∧
    (boundPoints curves ≠ [] →
      ((∃ p ∈ boundPoints curves, p.1 = (calculate_bounds curves).min_x) ∧
       (∃ p ∈ boundPoints curves, p.1 = (calculate_bounds curves).max_x) ∧
       (∃ p ∈ boundPoints curves, p.2 = (calculate_bounds curves).min_y) ∧
       (∃ p ∈ boundPoints curves, p.2 = (calculate_bounds curves).max_y))) ∧
    (∀ c ∈ curves, ∀ e ∈ c.elements,
      (((e.startP.x : ℝ)), ((e.startP.y : ℝ))) ∈ boundPoints curves ∧
      (((e.endP.x : ℝ)), ((e.endP.y : ℝ))) ∈ boundPoints curves) ∧
    (∀ c ∈ curves, ∀ a : ArcSeg, Segment.arc a ∈ c.elements →
      ((a.center.x : ℝ) - arc_radius a, ((a.center.y : ℝ))) ∈ boundPoints curves ∧
      ((a.center.x : ℝ) + arc_radius a, ((a.center.y : ℝ))) ∈ boundPoints curves ∧
      (((a.center.x : ℝ)), (a.center.y : ℝ) - arc_radius a) ∈ boundPoints curves ∧
      (((a.center.x : ℝ)), (a.center.y : ℝ) + arc_radius a) ∈ boundPoints curves) := by
  refine ⟨?_, ?_, ?_, ?_, ?_⟩
  · intro h
    unfold calculate_bounds
    rw [h]
  · intro p hp
    cases hbp : boundPoints curves with
    | nil => rw [hbp] at hp; cases hp
    | cons q rest =>
      rw [hbp] at hp
      rw [calculate_bounds_cons q rest curves hbp]
      rcases List.mem_cons.mp hp with rfl | hp'
      · exact ⟨foldl_min_le_init _ _, le_foldl_max_init _ _,
          foldl_min_le_init _ _, le_foldl_max_init _ _⟩
      · exact ⟨foldl_min_le_mem _ _ _ (List.mem_map_of_mem Prod.fst hp'),
          le_foldl_max_mem _ _ _ (List.mem_map_of_mem Prod.fst hp'),
          foldl_min_le_mem _ _ _ (List.mem_map_of_mem Prod.snd hp'),
          le_foldl_max_mem _ _ _ (List.mem_map_of_mem Prod.snd hp')⟩
  · intro hne
    cases hbp : boundPoints curves with
    | nil => exact absurd hbp hne
    | cons q rest =>
      rw [calculate_bounds_cons q rest curves hbp]
      refine ⟨?_, ?_, ?_, ?_⟩
      · rcases foldl_min_attained (rest.map Prod.fst) q.1 with hh | hh
        · exact ⟨q, List.mem_cons_self _ _, hh.symm⟩
        · rcases List.mem_map.mp hh with ⟨p', hp', hp'eq⟩
          exact ⟨p', List.mem_cons_of_mem _ hp', hp'eq⟩
      · rcases foldl_max_attained (rest.map Prod.fst) q.1 with hh | hh
        · exact ⟨q, List.mem_cons_self _ _, hh.symm⟩
        · rcases List.mem_map.mp hh with ⟨p', hp', hp'eq⟩
          exact ⟨p', List.mem_cons_of_mem _ hp', hp'eq⟩
      · rcases foldl_min_attained (rest.map Prod.snd) q.2 with hh | hh
        · exact ⟨q, List.mem_cons_self _ _, hh.symm⟩
        · rcases List.mem_map.mp hh with ⟨p', hp', hp'eq⟩
          exact ⟨p', List.mem_cons_of_mem _ hp', hp'eq⟩
      · rcases foldl_max_attained (rest.map Prod.snd) q.2 with hh | hh
        · exact ⟨q, List.mem_cons_self _ _, hh.symm⟩
        · rcases List.mem_map.mp hh with ⟨p', hp', hp'eq⟩
          exact ⟨p', List.mem_cons_of_mem _ hp', hp'eq⟩
  · intro c hc e he
    constructor <;>
      exact List.mem_flatMap.mpr ⟨c, hc, List.mem_flatMap.mpr ⟨e, he,
        by cases e <;> simp [Segment.startP, Segment.endP]⟩⟩
  · intro c hc a ha
    refine ⟨?_, ?_, ?_, ?_⟩ <;>
      exact List.mem_flatMap.mpr ⟨c, hc, List.mem_flatMap.mpr
        ⟨Segment.arc a, ha, by simp [Segment.startP, Segment.endP]⟩⟩

/-- C5 (witness): at the empty curve list no points are collected and
the fallback bounds are returned; for a one-line-segment curve the
collected start point lies within the computed bounds. -/
theorem C5_witness :
    calculate_bounds [] = ⟨0, 1, 0, 1⟩ ∧
    (((0 : ℝ), (0 : ℝ)) ∈
      boundPoints [Curve.mk [Segment.line ⟨0, 0⟩ ⟨1, 2⟩] ("open") none none] ∧
     (calculate_bounds [Curve.mk [Segment.line ⟨0, 0⟩ ⟨1, 2⟩]
        ("open") none none]).min_x ≤ (0 : ℝ) ∧
     (0 : ℝ) ≤ (calculate_bounds [Curve.mk [Segment.line ⟨0, 0⟩ ⟨1, 2⟩]
        ("open") none none]).max_x ∧
     (calculate_bounds [Curve.mk [Segment.line ⟨0, 0⟩ ⟨1, 2⟩]
        ("open") none none]).min_y ≤ (0 : ℝ) ∧
     (0 : ℝ) ≤ (calculate_bounds [Curve.mk [Segment.line ⟨0, 0⟩ ⟨1, 2⟩]
        ("open") none none]).max_y) :=
  ⟨(C5_calculate_bounds []).1 rfl,
   have hmem : ((0 : ℝ), (0 : ℝ)) ∈
       boundPoints [Curve.mk [Segment.line ⟨0, 0⟩ ⟨1, 2⟩] ("open") none none] := by
     simp [boundPoints, Segment.startP, Segment.endP]
   ⟨hmem, (C5_calculate_bounds _).2.1 _ hmem⟩⟩

theorem applyT_dist_abs (t : Transform) (p q : Point) :
    svgDist (applyT t p) (applyT t q) = |t.scale| * point_distance p q := by
  unfold svgDist applyT point_distance
  have hsq : ((q.x : ℝ) * t.scale + t.offset_x -
        ((p.x : ℝ) * t.scale + t.offset_x)) ^ 2 +
      (-(q.y : ℝ) * t.scale + t.offset_y -
        (-(p.y : ℝ) * t.scale + t.offset_y)) ^ 2 =
      t.scale ^ 2 * (((q.x - p.x : ℚ) : ℝ) ^ 2 + ((q.y - p.y : ℚ) : ℝ) ^ 2) := by
    push_cast
    ring
  rw [hsq, Real.sqrt_mul (sq_nonneg _), Real.sqrt_sq_eq_abs]

/-- C10 (amended): for bounds with `min ≤ max` componentwise (as all
bounds produced by the bounds calculator are) and positive view
dimensions, the transform produced by `_create_transform` is a
similarity: canvas distances are exactly `transform.scale` times
model distances, with `transform.scale > 0`. -/
theorem C10_transform_similarity (vw vh w h : ℝ) (b : Bounds) (p q : Point)
    (hvw : 0 < vw) (hvh : 0 < vh)
    (hx : b.min_x ≤ b.max_x) (hy : b.min_y ≤ b.max_y) :
    svgDist (applyT (create_transform vw vh w h b) p)
        (applyT (create_transform vw vh w h b) q) =
      (create_transform vw vh w h b).scale * point_distance p q := by
  rw [applyT_dist_abs,
    abs_of_pos (create_transform_scale_pos vw vh w h b hvw hvh hx hy)]

/-- C10 (witness): the default viewer dimensions with unit bounds and
the points (0,0), (3,4). -/
theorem C10_witness :
    ((0 : ℝ) < 700 ∧ (0 : ℝ) < 500 ∧
      (Bounds.mk 0 1 0 1).min_x ≤ (Bounds.mk 0 1 0 1).max_x ∧
      (Bounds.mk 0 1 0 1).min_y ≤ (Bounds.mk 0 1 0 1).max_y) ∧
    svgDist (applyT (create_transform 700 500 800 600 ⟨0, 1, 0, 1⟩) ⟨0, 0⟩)
        (applyT (create_transform 700 500 800 600 ⟨0, 1, 0, 1⟩) ⟨3, 4⟩) =
      (create_transform 700 500 800 600 ⟨0, 1, 0, 1⟩).scale *
        point_distance ⟨0, 0⟩ ⟨3, 4⟩ :=
  ⟨⟨by norm_num, by norm_num, by norm_num, by norm_num⟩,
   C10_transform_similarity 700 500 800 600 ⟨0, 1, 0, 1⟩ ⟨0, 0⟩ ⟨3, 4⟩
     (by norm_num) (by norm_num) (by norm_num) (by norm_num)⟩

/-- C10 (counterexample): for an inverted bounds record
(`max_x < min_x`, never produced by the bounds calculator but a
"bounds" nonetheless) the computed scale is negative and the distance
ratio is `|scale|`, not `scale`: the claim's equality fails. -/
theorem C10_cex_inverted_bounds :
    svgDist (applyT (create_transform 700 500 800 600 ⟨0, -10, 0, -10⟩) ⟨0, 0⟩)
        (applyT (create_transform 700 500 800 600 ⟨0, -10, 0, -10⟩) ⟨1, 0⟩) ≠
      (create_transform 700 500 800 600 ⟨0, -10, 0, -10⟩).scale *
        point_distance ⟨0, 0⟩ ⟨1, 0⟩ := by
  have hscale : (create_transform 700 500 800 600
      (⟨0, -10, 0, -10⟩ : Bounds)).scale = -(700 / 11) := by
    simp only [create_transform]
    norm_num [min_def]
  have hdist : point_distance ⟨0, 0⟩ ⟨1, 0⟩ = 1 := by
    unfold point_distance
    norm_num
  rw [applyT_dist_abs, hscale, hdist]
  rw [abs_of_nonpos (by norm_num)]
  norm_num
